import Mathlib

/-! # vcpkg `Files` : a verification development for `toolsrc/src/vcpkg_Files.cpp`

The C++ file defines `RealFilesystem` (a pass-through to the host file system)
and two path utilities.  The embedding below follows the source function by
function.  `std::string` is a list of characters, `std::vector` a list, the host
file system an explicit `World` value that every mutating call threads through.
-/

set_option autoImplicit false

namespace vcpkg.Files

/-! ## `std::regex` : the fragment used by the source -/

/-- A compiled `std::regex` of the shape the source uses: one bracket expression
listing single characters. -/
structure regex where
  members : List Char
deriving DecidableEq, Repr

/-- ClassAtoms of an ECMAScript bracket expression, read up to the closing bracket
that must end the pattern.  A backslash followed by a character that is not an
identifier part is an IdentityEscape and denotes that character; escapes with a
special meaning and ranges are outside the fragment (`none`). -/
def class_atoms : List Char → Option (List Char)
  | [] => none
  | [']'] => some []
  | ']' :: _ => none
  | ['\\'] => none
  | '\\' :: c :: rest =>
    if c.isAlphanum || c == '_' || c == '$' then none
    else (class_atoms rest).map (fun cs => c :: cs)
  | '-' :: _ => none
  | c :: rest => (class_atoms rest).map (fun cs => c :: cs)

/-- The constructor `std::regex(pattern)`; `none` stands for `std::regex_error`. -/
def std_regex (pattern : List Char) : Option regex :=
  match pattern with
  | '[' :: '^' :: _ => none
  | '[' :: rest => (class_atoms rest).map regex.mk
  | _ => none

/-- The call `std::regex_search(s, re)`: some position of `s` matches the bracket
expression. -/
def regex_search (s : List Char) (re : regex) : Bool :=
  s.any (fun c => re.members.contains c)

/-- The raw string literal of line 7, `R"([\/:*?"<>|])"`: eleven characters,
starting with an opening bracket, a backslash and a slash. -/
def FILESYSTEM_INVALID_CHARACTERS_PATTERN : List Char :=
  ['[', '\\', '/', ':', '*', '?', '"', '<', '>', '|', ']']

/-- The static `FILESYSTEM_INVALID_CHARACTERS_REGEX`. -/
def FILESYSTEM_INVALID_CHARACTERS_REGEX : Option regex :=
  std_regex FILESYSTEM_INVALID_CHARACTERS_PATTERN

/-- The function `has_invalid_chars_for_filesystem` (lines 170-173). -/
def has_invalid_chars_for_filesystem (s : List Char) : Bool :=
  match FILESYSTEM_INVALID_CHARACTERS_REGEX with
  | some re => regex_search s re
  | none => false

/-! ## Results of a call -/

/-- The two `std::errc` values the source returns. -/
inductive errc where
  | no_such_file_or_directory
  | file_too_large
deriving DecidableEq, Repr

/-- The fallible result `Expected<T>`: a payload or an error kind. -/
inductive Expected (α : Type) where
  | value (a : α)
  | error (e : errc)
deriving DecidableEq, Repr

/-- How a call ends: it returns, a C++ exception leaves it, or the process is
terminated by the fatal check. -/
inductive Run (α : Type) where
  | ret (a : α)
  | raise
  | exit
deriving DecidableEq, Repr

/-! ## The platform and the host file system -/

/-- The target: the width of `size_t` and `std::string::max_size()`, which is
below `SIZE_MAX` (`npos`) on every implementation.  Stream offsets
(`std::streamoff`) are 64-bit signed. -/
structure Platform where
  size_bits : Nat
  max_size : Nat
  max_size_lt : max_size < 2 ^ size_bits - 1

/-- The constant `SIZE_MAX`. -/
def SIZE_MAX (pf : Platform) : Nat := 2 ^ pf.size_bits - 1

/-- The 32-bit Windows target. -/
def win32 : Platform := ⟨32, 2 ^ 32 - 2, by decide⟩

/-- The 64-bit Windows target. -/
def win64 : Platform := ⟨64, 2 ^ 63 - 2, by decide⟩

/-- The operating-system calls the writing functions make, as recorded in the
trace of the world. -/
inductive Syscall (Path : Type) where
  | open_write (p : Path) (ok : Bool)
  | write (p : Path) (requested accepted : Nat)
  | close (p : Path)
deriving DecidableEq, Repr

/-- The host file system as the source sees it.  `files` gives the bytes of each
existing regular file.  The other fields are the ways the host can fail:
`write_denied p` makes opening `p` for writing fail, `capacity p = some k` makes
the device refuse bytes beyond a file size of `k`, `tell_fails p` makes the
position query on `p` fail, and `read_limit p = some k` makes the device deliver
only the first `k` bytes of `p`.  `bufsiz` is the size of the buffer the C
runtime gives a `FILE*` stream (`0` for an unbuffered stream). -/
structure World (Path : Type) where
  files : Path → Option (List Char)
  write_denied : Path → Bool
  capacity : Path → Option Nat
  tell_fails : Path → Bool
  read_limit : Path → Option Nat
  bufsiz : Nat
  trace : List (Syscall Path)

section io
variable {Path : Type} [DecidableEq Path]

/-- Replace the bytes of one file. -/
def World.set_file (w : World Path) (p : Path) (c : List Char) : World Path :=
  { w with files := fun q => if q = p then some c else w.files q }

/-- Append a call to the trace. -/
def World.log (w : World Path) (c : Syscall Path) : World Path :=
  { w with trace := w.trace ++ [c] }

/-- Open for writing with truncation (`"wb"`, `out | binary | trunc`): fails when
the host denies it, otherwise the file exists and is empty. -/
def World.open_write (w : World Path) (p : Path) : World Path × Bool :=
  if w.write_denied p then (w.log (.open_write p false), false)
  else ((w.set_file p []).log (.open_write p true), true)

/-- Append `data` to the open file `p`; the device accepts bytes up to the
capacity of the file.  Returns the number of bytes accepted. -/
def World.write (w : World Path) (p : Path) (data : List Char) : World Path × Nat :=
  let old := (w.files p).getD []
  let accepted :=
    match w.capacity p with
    | none => data.length
    | some k => min data.length (k - old.length)
  ((w.set_file p (old ++ data.take accepted)).log (.write p data.length accepted), accepted)

/-- Close the open file `p`. -/
def World.close (w : World Path) (p : Path) : World Path :=
  w.log (.close p)

/-! ## Input streams -/

/-- An input `std::fstream`: the bytes the device will still deliver, the size
the position query at the end reports (`none` when the query fails) and the
state bits. -/
structure ifstream where
  buf : List Char
  size : Option Nat
  eofbit : Bool
  failbit : Bool
deriving DecidableEq, Repr

/-- The constructor `std::fstream(file_path, in | binary)`; `none` stands for a
stream whose `fail()` is true after construction. -/
def World.open_read (w : World Path) (p : Path) : Option ifstream :=
  match w.files p with
  | none => none
  | some c =>
    some { buf := match w.read_limit p with
                  | none => c
                  | some k => c.take k
           size := if w.tell_fails p then none else some c.length
           eofbit := false
           failbit := false }

/-- The call `seekg(0, end)` followed by `tellg()`: the size, or `-1`. -/
def ifstream.tellg_end (s : ifstream) : Int :=
  match s.size with
  | some n => (n : Int)
  | none => -1

/-- The call `std::getline(stream, line)`.  A stream that is not good fails at
once.  Otherwise characters are extracted up to a newline, which is consumed and
not stored, or up to the end of the input, which sets `eofbit`; `failbit` is set
when nothing at all was extracted. -/
def getline (s : ifstream) : ifstream × List Char :=
  if s.eofbit || s.failbit then ({ s with failbit := true }, [])
  else
    let line := s.buf.takeWhile (fun c => c != '\n')
    match s.buf.dropWhile (fun c => c != '\n') with
    | [] => ({ s with buf := [], eofbit := true, failbit := line.isEmpty }, line)
    | _ :: rest => ({ s with buf := rest }, line)

/-! ## `RealFilesystem` -/

/-- The test `length > SIZE_MAX` of line 23 under the usual arithmetic
conversions: with `size_t` narrower than the 64-bit offset both sides become
`long long`, otherwise both become unsigned of the width of `size_t`. -/
def exceeds_SIZE_MAX (pf : Platform) (length : Int) : Bool :=
  if pf.size_bits < 64 then decide ((SIZE_MAX pf : Int) < length)
  else decide ((SIZE_MAX pf : Int) < length % 2 ^ pf.size_bits)

/-- The method `read_contents` (lines 11-34). -/
def read_contents (pf : Platform) (w : World Path) (file_path : Path) :
    Run (Expected (List Char)) :=
  match w.open_read file_path with
  | none => .ret (.error .no_such_file_or_directory)
  | some file_stream =>
    let length := file_stream.tellg_end
    if exceeds_SIZE_MAX pf length then .ret (.error .file_too_large)
    else
      -- output.resize(static_cast<size_t>(length))
      let n := (length % 2 ^ pf.size_bits).toNat
      if pf.max_size < n then .raise
      else
        -- file_stream.read(&output[0], length), its outcome is not looked at
        let got := file_stream.buf.take length.toNat
        .ret (.value (got ++ List.replicate (n - got.length) (Char.ofNat 0)))

/-- The loop `while (std::getline(file_stream, line)) output.push_back(line)`;
`none` when the iterations outrun `fuel`. -/
def read_lines_loop : Nat → ifstream → List (List Char) → Option (List (List Char))
  | 0, _, _ => none
  | fuel + 1, file_stream, output =>
    let r := getline file_stream
    if r.1.failbit then some output
    else read_lines_loop fuel r.1 (output ++ [r.2])

/-- The method `read_lines` (lines 35-52). -/
def read_lines (fuel : Nat) (w : World Path) (file_path : Path) :
    Option (Run (Expected (List (List Char)))) :=
  match w.open_read file_path with
  | none => some (.ret (.error .no_such_file_or_directory))
  | some file_stream =>
    (read_lines_loop fuel file_stream []).map (fun output => .ret (.value output))

/-- An output `std::fstream`: the file it writes, whether a file is open and
whether `fail()` holds. -/
structure ofstream (Path : Type) where
  path : Path
  is_open : Bool
  failed : Bool

/-- The constructor `std::fstream(file_path, out | binary | trunc)`: a failed
open leaves a stream with no file and the failure state set. -/
def ofstream.open (w : World Path) (p : Path) : World Path × ofstream Path :=
  let r := w.open_write p
  (r.1, ⟨p, r.2, !r.2⟩)

/-- The insertion `output << data`: nothing happens on a failed stream; a short
write sets the failure state. -/
def ofstream.insert (st : World Path × ofstream Path) (data : List Char) :
    World Path × ofstream Path :=
  if st.2.failed then st
  else
    let r := st.1.write st.2.path data
    (r.1, { st.2 with failed := r.2 != data.length })

/-- The call `output.close()`: closes the file when one is open. -/
def ofstream.close (st : World Path × ofstream Path) : World Path :=
  if st.2.is_open then st.1.close st.2.path else st.1

/-- The method `write_lines` (lines 93-101). -/
def write_lines (w : World Path) (file_path : Path) (lines : List (List Char)) :
    World Path × Run Unit :=
  let output := ofstream.open w file_path
  let output := lines.foldl
    (fun out line => ofstream.insert (ofstream.insert out line) ['\n']) output
  (ofstream.close output, .ret ())

/-- Modelled from the spec: `Checks::check_exit` and `VCPKG_LINE_INFO` are
declared outside this file.  The spec calls it the process-level fatal check:
when the expression is false it halts the process with a location-tagged
message instead of returning; when the expression is true it returns. -/
def check_exit (expression : Bool) : Run Unit :=
  if expression then .ret () else .exit

/-- A `FILE*` stream open for writing: its file and the bytes `fwrite` has
accepted that still wait in the buffer of the stream. -/
structure FILE (Path : Type) where
  path : Path
  buffer : List Char

/-- The call `fwrite(data, 1, size, f)` on a fully buffered stream.  Whole blocks
of the buffer size are handed to the device during the call; what is left over
is copied into the buffer and counts as written.  A short device write ends the
call with the number of bytes of `data` the device took. -/
def fwrite (w : World Path) (f : FILE Path) (data : List Char) :
    World Path × FILE Path × Nat :=
  let pending := f.buffer ++ data
  let direct := if w.bufsiz = 0 then pending.length
                else pending.length / w.bufsiz * w.bufsiz
  if direct = 0 then (w, { f with buffer := pending }, data.length)
  else
    let r := w.write f.path (pending.take direct)
    if r.2 < direct then (r.1, { f with buffer := [] }, r.2 - f.buffer.length)
    else (r.1, { f with buffer := pending.drop direct }, data.length)

/-- The call `fclose(f)`: the buffer is flushed to the device and the file
closed.  The call reports a failed flush in its result, which line 158 does not
look at, so only the world is returned. -/
def fclose (w : World Path) (f : FILE Path) : World Path :=
  (if f.buffer.isEmpty then w else (w.write f.path f.buffer).1).close f.path

/-- The method `write_contents` (lines 152-161). -/
def write_contents (w : World Path) (file_path : Path) (data : List Char) :
    World Path × Run Unit :=
  -- _wfopen_s(&f, ..., L"wb"): ec == 0 exactly when the open succeeded
  let opened := w.open_write file_path
  match check_exit opened.2 with
  | .ret () =>
    let written := fwrite opened.1 ⟨file_path, []⟩ data
    let count := written.2.2
    let closed := fclose written.1 written.2.1
    (closed, check_exit (count == data.length))
  | r => (opened.1, r)

end io

/-! ## `find_file_recursively_up` -/

/-- The operations of `fs::path` and the query `exists` the upward search uses;
they belong to the standard library and the host. -/
structure PathOps (Path : Type) where
  empty : Path → Bool
  parent_path : Path → Path
  append : Path → List Char → Path
  fs_exists : Path → Bool

/-- The loop of `find_file_recursively_up` (lines 56-63) from `current_dir` on;
`none` when the iterations outrun `fuel`. -/
def find_file_loop {Path : Type} (ops : PathOps Path) (filename : List Char) :
    Nat → Path → Option Path
  | 0, _ => none
  | fuel + 1, current_dir =>
    if ops.empty current_dir then some current_dir
    else
      let candidate := ops.append current_dir filename
      if ops.fs_exists candidate then some current_dir
      else find_file_loop ops filename fuel (ops.parent_path current_dir)

/-- The method `find_file_recursively_up` (lines 53-66). -/
def find_file_recursively_up {Path : Type} (ops : PathOps Path) (fuel : Nat)
    (starting_dir : Path) (filename : List Char) : Option Path :=
  find_file_loop ops filename fuel starting_dir


/-! ## The upward search as the specification words it -/

/-- The first `n` directories of the chain `starting_dir`,
`parent(starting_dir)`, `parent(parent(starting_dir))`, ... -/
def ancestor_chain {Path : Type} (ops : PathOps Path) : Nat → Path → List Path
  | 0, _ => []
  | n + 1, d => d :: ancestor_chain ops n (ops.parent_path d)

/-- First-match search over the ancestor chain, in the words of the
specification: the first directory `d` among the `n` non-empty ones for which
`exists(d / filename)` holds, and otherwise the path the chain ends in. -/
def first_match_in_chain {Path : Type} (ops : PathOps Path) (n : Nat)
    (starting_dir : Path) (filename : List Char) : Path :=
  match (ancestor_chain ops n starting_dir).find?
      (fun d => ops.fs_exists (ops.append d filename)) with
  | some d => d
  | none => ops.parent_path^[n] starting_dir

/-- Paths as lists of segments, for concrete instances: a path is empty when it
has no segment, its parent drops the last one, and exactly the paths in `present`
exist. -/
def segment_paths (present : List (List (List Char))) : PathOps (List (List Char)) where
  empty := fun p => p.isEmpty
  parent_path := fun p => p.dropLast
  append := fun p name => p ++ [name]
  fs_exists := fun p => present.contains p

/-! ## Line splitting as the specification words it -/

/-- The lines of a file in the words of the specification: the segments of `c`
delimited by the newline character, terminator stripped, without the final
empty segment when `c` is empty or ends with a newline. -/
def lines_of (c : List Char) : List (List Char) :=
  if c = [] ∨ c.getLast? = some '\n' then (c.splitOn '\n').dropLast
  else c.splitOn '\n'

/-- What `write_lines` is to leave in the file: every line followed by a single
newline. -/
def lines_content (lines : List (List Char)) : List Char :=
  (lines.map (fun line => line ++ ['\n'])).flatten

/-- The state of an output stream on `F` that has written `acc` so far without
failure, on a host that otherwise is the host `base`. -/
def Writing {Path : Type} (F : Path) (base : World Path) (acc : List Char)
    (st : World Path × ofstream Path) : Prop :=
  st.2 = ⟨F, true, false⟩ ∧ st.1.files F = some acc ∧
  st.1.capacity = base.capacity ∧ st.1.read_limit = base.read_limit ∧
  st.1.tell_fails = base.tell_fails ∧ st.1.write_denied = base.write_denied ∧
  ∀ q, q ≠ F → st.1.files q = base.files q

/-! ## Concrete hosts -/

/-- A healthy host with paths numbered by naturals and one file, `1`, holding
the given bytes. -/
def host (c : List Char) : World Nat where
  files := fun p => if p = 1 then some c else none
  write_denied := fun _ => false
  capacity := fun _ => none
  tell_fails := fun _ => false
  read_limit := fun _ => none
  bufsiz := 4096
  trace := []

/-- The host of `host c` whose device delivers only the first `k` bytes of a
file. -/
def short_read_host (c : List Char) (k : Nat) : World Nat :=
  { host c with read_limit := fun _ => some k }

/-- The host of `host c` whose position query fails. -/
def no_tell_host (c : List Char) : World Nat :=
  { host c with tell_fails := fun _ => true }

/-- The host of `host c` that denies every open for writing. -/
def denied_host (c : List Char) : World Nat :=
  { host c with write_denied := fun _ => true }

/-- The host of `host c` whose device holds at most `k` bytes per file. -/
def full_host (c : List Char) (k : Nat) : World Nat :=
  { host c with capacity := fun _ => some k }

/-! ## Theorems: the invalid-character test -/

/-- The pattern of line 7 compiles, and to a class of eight characters: the
backslash of the literal escapes the slash that follows it. -/
theorem regex_compiled : FILESYSTEM_INVALID_CHARACTERS_REGEX =
    some ⟨['/', ':', '*', '?', '"', '<', '>', '|']⟩ := by decide

/-- The test written out: some character of `s` is in the compiled class. -/
theorem has_invalid_chars_eq_any (s : List Char) :
    has_invalid_chars_for_filesystem s =
      s.any (fun c => ['/', ':', '*', '?', '"', '<', '>', '|'].contains c) := by
  unfold has_invalid_chars_for_filesystem
  rw [regex_compiled]
  rfl

/-- C2: `has_invalid_chars_for_filesystem s` is true exactly when some character
of `s`, at any position, is one of `/ : * ? " < > |`; hence it is false for the
empty string and for every string of alphanumeric characters only. -/
theorem has_invalid_chars_iff_class (s : List Char) :
    (has_invalid_chars_for_filesystem s = true ↔
      ∃ c ∈ s, c ∈ ['/', ':', '*', '?', '"', '<', '>', '|']) ∧
    has_invalid_chars_for_filesystem [] = false ∧
    ((∀ c ∈ s, c.isAlphanum = true) → has_invalid_chars_for_filesystem s = false) := by
  have key : has_invalid_chars_for_filesystem s = true ↔
      ∃ c ∈ s, c ∈ ['/', ':', '*', '?', '"', '<', '>', '|'] := by
    rw [has_invalid_chars_eq_any, List.any_eq_true]
    constructor
    · rintro ⟨c, hc, h⟩
      exact ⟨c, hc, List.elem_iff.mp h⟩
    · rintro ⟨c, hc, h⟩
      exact ⟨c, hc, List.elem_iff.mpr h⟩
  refine ⟨key, by rw [has_invalid_chars_eq_any]; rfl, ?_⟩
  intro halnum
  cases hres : has_invalid_chars_for_filesystem s with
  | false => rfl
  | true =>
    obtain ⟨c, hc, hmem⟩ := key.mp hres
    have hal := halnum c hc
    simp only [List.mem_cons, List.mem_singleton, List.not_mem_nil, or_false] at hmem
    rcases hmem with h | h | h | h | h | h | h | h <;> subst h <;> exact absurd hal (by decide)

/-- C3, evaluated on the code: a string that holds a backslash and none of the
other eight characters is reported as free of invalid characters, because the
backslash of the literal is read as an escape of the slash. -/
theorem has_invalid_chars_backslash_false :
    has_invalid_chars_for_filesystem ['\\'] = false ∧
    has_invalid_chars_for_filesystem ['a', '\\', 'b'] = false := by
  rw [has_invalid_chars_eq_any, has_invalid_chars_eq_any]
  decide

/-! ## Theorems: the upward search -/

/-- The loop computes the first match of the chain once the fuel covers it. -/
theorem find_file_loop_eq {Path : Type} (ops : PathOps Path) (filename : List Char) (n : Nat) :
    ∀ (fuel : Nat) (d : Path), ops.empty (ops.parent_path^[n] d) = true →
      (∀ i, i < n → ops.empty (ops.parent_path^[i] d) = false) → n < fuel →
      find_file_loop ops filename fuel d = some (first_match_in_chain ops n d filename) := by
  induction n with
  | zero =>
    intro fuel d hempty _ hfuel
    obtain ⟨f, rfl⟩ : ∃ f, fuel = f + 1 := ⟨fuel - 1, by omega⟩
    simp only [Function.iterate_zero, id_eq] at hempty
    simp [find_file_loop, first_match_in_chain, ancestor_chain, hempty]
  | succ n ih =>
    intro fuel d hempty hmin hfuel
    obtain ⟨f, rfl⟩ : ∃ f, fuel = f + 1 := ⟨fuel - 1, by omega⟩
    have h0 : ops.empty d = false := by simpa using hmin 0 (Nat.succ_pos n)
    have hrec := ih f (ops.parent_path d)
      (by simpa [Function.iterate_succ_apply] using hempty)
      (fun i hi => by simpa [Function.iterate_succ_apply] using hmin (i + 1) (by omega))
      (by omega)
    cases hex : ops.fs_exists (ops.append d filename) with
    | true => simp [find_file_loop, first_match_in_chain, ancestor_chain, h0, hex]
    | false =>
      simp only [find_file_loop, h0, hex, Bool.false_eq_true, if_false, hrec]
      simp [first_match_in_chain, ancestor_chain, hex, Function.iterate_succ_apply]

/-- When no directory of the chain passes the test the first match is the end
of the chain. -/
theorem first_match_none {Path : Type} (ops : PathOps Path) (filename : List Char) (n : Nat) :
    ∀ d : Path, (∀ x ∈ ancestor_chain ops n d, ops.fs_exists (ops.append x filename) = false) →
      first_match_in_chain ops n d filename = ops.parent_path^[n] d := by
  intro d h
  have hnone : (ancestor_chain ops n d).find?
      (fun x => ops.fs_exists (ops.append x filename)) = none := by
    rw [List.find?_eq_none]
    intro x hx
    simp [h x hx]
  simp [first_match_in_chain, hnone]

/-- C1: when the chain `starting_dir`, `parent(starting_dir)`, ... reaches the
empty path after `n` steps, `find_file_recursively_up` returns (with any fuel
above `n`) the first directory of the chain, the starting directory included,
for which `exists(d / filename)` holds; it returns the empty path ending the
chain when no directory passes the test, and `starting_dir` itself when that is
empty. -/
theorem find_file_recursively_up_first_match {Path : Type} (ops : PathOps Path)
    (starting_dir : Path) (filename : List Char) (n fuel : Nat)
    (hempty : ops.empty (ops.parent_path^[n] starting_dir) = true)
    (hmin : ∀ i, i < n → ops.empty (ops.parent_path^[i] starting_dir) = false)
    (hfuel : n < fuel) :
    find_file_recursively_up ops fuel starting_dir filename
        = some (first_match_in_chain ops n starting_dir filename) ∧
    ((∀ d ∈ ancestor_chain ops n starting_dir,
        ops.fs_exists (ops.append d filename) = false) →
      find_file_recursively_up ops fuel starting_dir filename
        = some (ops.parent_path^[n] starting_dir)) ∧
    (n = 0 → find_file_recursively_up ops fuel starting_dir filename = some starting_dir) := by
  have key := find_file_loop_eq ops filename n fuel starting_dir hempty hmin hfuel
  refine ⟨key, ?_, ?_⟩
  · intro hno
    rw [find_file_recursively_up, key, first_match_none ops filename n starting_dir hno]
  · intro hn
    subst hn
    rw [find_file_recursively_up, key]
    simp [first_match_in_chain, ancestor_chain]

/-- C1 at a concrete tree: from `a/b/c`, with `name` present only in `a`, the
search returns `a`. -/
theorem find_file_recursively_up_first_match_witness :
    (segment_paths [[['a'], ['n']]]).empty
        ((segment_paths [[['a'], ['n']]]).parent_path^[3] [['a'], ['b'], ['c']]) = true ∧
    (find_file_recursively_up (segment_paths [[['a'], ['n']]]) 4 [['a'], ['b'], ['c']] ['n']
        = some (first_match_in_chain (segment_paths [[['a'], ['n']]]) 3
            [['a'], ['b'], ['c']] ['n']) ∧
      ((∀ d ∈ ancestor_chain (segment_paths [[['a'], ['n']]]) 3 [['a'], ['b'], ['c']],
          (segment_paths [[['a'], ['n']]]).fs_exists
            ((segment_paths [[['a'], ['n']]]).append d ['n']) = false) →
        find_file_recursively_up (segment_paths [[['a'], ['n']]]) 4 [['a'], ['b'], ['c']] ['n']
          = some ((segment_paths [[['a'], ['n']]]).parent_path^[3] [['a'], ['b'], ['c']])) ∧
      (3 = 0 → find_file_recursively_up (segment_paths [[['a'], ['n']]]) 4
          [['a'], ['b'], ['c']] ['n'] = some [['a'], ['b'], ['c']])) ∧
    first_match_in_chain (segment_paths [[['a'], ['n']]]) 3 [['a'], ['b'], ['c']] ['n']
      = [['a']] :=
  ⟨by decide,
   find_file_recursively_up_first_match (segment_paths [[['a'], ['n']]])
     [['a'], ['b'], ['c']] ['n'] 3 4 (by decide)
     (by intro i hi; interval_cases i <;> decide) (by decide),
   by decide⟩

/-! ## Lemmas: `getline` and the reading loop -/

/-- A buffer either holds no newline or splits at its first one. -/
theorem first_newline (buf : List Char) :
    ((∀ x ∈ buf, x ≠ '\n') ∧ buf.takeWhile (fun c => c != '\n') = buf ∧
        buf.dropWhile (fun c => c != '\n') = []) ∨
    ∃ l rest, buf = l ++ '\n' :: rest ∧ (∀ x ∈ l, x ≠ '\n') ∧
        buf.takeWhile (fun c => c != '\n') = l ∧
        buf.dropWhile (fun c => c != '\n') = '\n' :: rest := by
  induction buf with
  | nil => left; simp
  | cons a t ih =>
    by_cases ha : a = '\n'
    · right
      exact ⟨[], t, by simp [ha], by simp, by simp [ha], by simp [ha]⟩
    · rcases ih with ⟨h1, h2, h3⟩ | ⟨l, rest, h1, h2, h3, h4⟩
      · left
        refine ⟨?_, by simp [ha, h2], by simp [ha, h3]⟩
        intro x hx
        rcases List.mem_cons.mp hx with rfl | hx
        · exact ha
        · exact h1 x hx
      · right
        refine ⟨a :: l, rest, by simp [h1], ?_, by simp [ha, h3], by simp [ha, h4]⟩
        intro x hx
        rcases List.mem_cons.mp hx with rfl | hx
        · exact ha
        · exact h2 x hx

/-- On a good stream whose buffer holds no newline, `getline` takes the whole
buffer, sets `eofbit`, and fails exactly when the buffer was empty. -/
theorem getline_at_end (buf : List Char) (sz : Option Nat) (h : ∀ x ∈ buf, x ≠ '\n') :
    getline ⟨buf, sz, false, false⟩ = (⟨[], sz, true, buf.isEmpty⟩, buf) := by
  rcases first_newline buf with ⟨_, h2, h3⟩ | ⟨l, rest, h1, _, _, _⟩
  · simp [getline, h2, h3]
  · exact absurd rfl (h '\n' (by simp [h1]))

/-- On a good stream, `getline` takes the bytes before the first newline and
consumes the newline. -/
theorem getline_line (l rest : List Char) (sz : Option Nat) (h : ∀ x ∈ l, x ≠ '\n') :
    getline ⟨l ++ '\n' :: rest, sz, false, false⟩ = (⟨rest, sz, false, false⟩, l) := by
  have hp : ∀ a ∈ l, (fun c : Char => c != '\n') a = true := by
    intro a ha
    simpa using h a ha
  have hd : (l ++ '\n' :: rest).dropWhile (fun c => c != '\n') = '\n' :: rest := by
    rw [List.dropWhile_append_of_pos hp]
    simp
  have ht : (l ++ '\n' :: rest).takeWhile (fun c => c != '\n') = l := by
    rw [List.takeWhile_append_of_pos hp]
    simp
  simp [getline, hd, ht]

/-- An empty buffer has no line. -/
theorem lines_of_nil : lines_of [] = [] := by
  simp [lines_of, List.splitOn, List.splitOnP_nil]

/-- A non-empty buffer without a newline is one line. -/
theorem lines_of_single (l : List Char) (h : ∀ x ∈ l, x ≠ '\n') (hne : l ≠ []) :
    lines_of l = [l] := by
  have hlast : l.getLast? ≠ some '\n' := by
    intro hl
    exact h '\n' (List.mem_of_getLast?_eq_some hl) rfl
  have hs : l.splitOn '\n' = [l] :=
    List.splitOnP_eq_single _ _ (by intro x hx; simpa using h x hx)
  simp [lines_of, hne, hlast, hs]

/-- Whether a buffer is empty or ends with a newline is decided by what follows
its first newline. -/
theorem closed_line (l rest : List Char) :
    ((l ++ '\n' :: rest) = [] ∨ (l ++ '\n' :: rest).getLast? = some '\n') ↔
      (rest = [] ∨ rest.getLast? = some '\n') := by
  cases rest with
  | nil => simp
  | cons a t =>
    have : (l ++ '\n' :: a :: t).getLast? = (a :: t).getLast? := by
      rw [List.getLast?_append_of_ne_nil l (List.cons_ne_nil _ _), List.getLast?_cons_cons]
    simp [this]

/-- The first line of a buffer is what stands before its first newline. -/
theorem lines_of_line (l rest : List Char) (h : ∀ x ∈ l, x ≠ '\n') :
    lines_of (l ++ '\n' :: rest) = l :: lines_of rest := by
  have hs : (l ++ '\n' :: rest).splitOn '\n' = l :: rest.splitOn '\n' :=
    List.splitOnP_first _ _ (by intro x hx; simpa using h x hx) '\n' (by simp) rest
  have hne : rest.splitOn '\n' ≠ [] := List.splitOnP_ne_nil _ _
  have hcond := closed_line l rest
  unfold lines_of
  by_cases hc : rest = [] ∨ rest.getLast? = some '\n'
  · rw [if_pos (hcond.mpr hc), if_pos hc, hs, List.dropLast_cons_of_ne_nil hne]
  · rw [if_neg (fun h' => hc (hcond.mp h')), if_neg hc, hs]

/-- With fuel above the buffer length plus one, the reading loop ends and
appends the lines of the buffer. -/
theorem read_lines_loop_eq (n : Nat) : ∀ (buf : List Char), buf.length ≤ n →
    ∀ (fuel : Nat) (sz : Option Nat) (out : List (List Char)), n + 2 ≤ fuel →
      read_lines_loop fuel ⟨buf, sz, false, false⟩ out = some (out ++ lines_of buf) := by
  induction n with
  | zero =>
    intro buf hlen fuel sz out hfuel
    have hb : buf = [] := List.length_eq_zero.mp (by omega)
    subst hb
    obtain ⟨f, rfl⟩ : ∃ f, fuel = f + 1 := ⟨fuel - 1, by omega⟩
    simp [read_lines_loop, getline_at_end, lines_of_nil]
  | succ n ih =>
    intro buf hlen fuel sz out hfuel
    obtain ⟨f, rfl⟩ : ∃ f, fuel = f + 2 := ⟨fuel - 2, by omega⟩
    rcases first_newline buf with ⟨h1, _, _⟩ | ⟨l, rest, h1, h2, _, _⟩
    · by_cases hb : buf = []
      · subst hb
        simp [read_lines_loop, getline_at_end, lines_of_nil]
      · have hemp : buf.isEmpty = false := by
          cases buf with
          | nil => exact absurd rfl hb
          | cons _ _ => rfl
        rw [read_lines_loop]
        simp only [getline_at_end buf sz h1, hemp, Bool.false_eq_true, if_false]
        rw [read_lines_loop]
        simp [getline, lines_of_single buf h1 hb]
    · subst h1
      have hrest : rest.length ≤ n := by
        simp only [List.length_append, List.length_cons] at hlen
        omega
      rw [read_lines_loop]
      simp only [getline_line l rest sz h2, Bool.false_eq_true, if_false]
      rw [ih rest hrest (f + 1) sz (out ++ [l]) (by omega), lines_of_line l rest h2]
      simp

/-! ## Theorems: reading -/

section reading
variable {Path : Type}

/-- C6: when the path does not exist, and whenever opening it for reading
fails, `read_contents` and `read_lines` both return the error kind
`no_such_file_or_directory` as a value: no payload, no exception, no exit. -/
theorem read_missing_not_found (pf : Platform) (w : World Path) (P : Path) (fuel : Nat)
    (hopen : w.open_read P = none) :
    read_contents pf w P = .ret (.error .no_such_file_or_directory) ∧
    read_lines fuel w P = some (.ret (.error .no_such_file_or_directory)) ∧
    (w.files P = none → w.open_read P = none) := by
  refine ⟨by simp [read_contents, hopen], by simp [read_lines, hopen], ?_⟩
  intro h
  simp [World.open_read, h]

/-- C6 at a concrete host: path `2` does not exist. -/
theorem read_missing_not_found_witness :
    (host ['a']).open_read 2 = none ∧
    (read_contents win32 (host ['a']) 2 = .ret (.error .no_such_file_or_directory) ∧
      read_lines 0 (host ['a']) 2 = some (.ret (.error .no_such_file_or_directory)) ∧
      ((host ['a']).files 2 = none → (host ['a']).open_read 2 = none)) :=
  ⟨by decide, read_missing_not_found win32 (host ['a']) 2 0 (by decide)⟩

/-- The lines of a buffer hold no newline, their number is the number of
newlines plus one for an unterminated last line, and writing each back with a
newline restores the buffer, up to the newline a last unterminated line lacks. -/
theorem lines_of_facts (n : Nat) : ∀ c : List Char, c.length ≤ n →
    (∀ l ∈ lines_of c, '\n' ∉ l) ∧
    (lines_of c).length =
      c.count '\n' + (if c = [] ∨ c.getLast? = some '\n' then 0 else 1) ∧
    lines_content (lines_of c) =
      (if c = [] ∨ c.getLast? = some '\n' then c else c ++ ['\n']) := by
  induction n with
  | zero =>
    intro c hc
    have hb : c = [] := List.length_eq_zero.mp (by omega)
    subst hb
    simp [lines_of_nil, lines_content]
  | succ n ih =>
    intro c hc
    rcases first_newline c with ⟨h1, _, _⟩ | ⟨l, rest, h1, h2, _, _⟩
    · by_cases hb : c = []
      · subst hb
        simp [lines_of_nil, lines_content]
      · have hlast : c.getLast? ≠ some '\n' := fun hl =>
          h1 '\n' (List.mem_of_getLast?_eq_some hl) rfl
        have hcount : c.count '\n' = 0 := List.count_eq_zero.mpr (fun hm => h1 '\n' hm rfl)
        rw [lines_of_single c h1 hb]
        refine ⟨?_, ?_, ?_⟩
        · intro x hx hm
          rw [List.mem_singleton.mp hx] at hm
          exact h1 '\n' hm rfl
        · simp [hb, hlast, hcount]
        · simp [hb, hlast, lines_content]
    · subst h1
      have hrest : rest.length ≤ n := by
        simp only [List.length_append, List.length_cons] at hc
        omega
      obtain ⟨ih1, ih2, ih3⟩ := ih rest hrest
      have hcount : (l ++ '\n' :: rest).count '\n' = rest.count '\n' + 1 := by
        rw [List.count_append, List.count_eq_zero.mpr (fun hm => h2 '\n' hm rfl)]
        simp
      rw [lines_of_line l rest h2]
      refine ⟨?_, ?_, ?_⟩
      · intro x hx
        rcases List.mem_cons.mp hx with rfl | hx
        · exact fun hm => h2 '\n' hm rfl
        · exact ih1 x hx
      · rw [List.length_cons, ih2, hcount]
        by_cases hcl : rest = [] ∨ rest.getLast? = some '\n'
        · rw [if_pos hcl, if_pos ((closed_line l rest).mpr hcl)]
        · rw [if_neg hcl, if_neg (fun h => hcl ((closed_line l rest).mp h))]
      · have hcons : lines_content (l :: lines_of rest) =
            l ++ '\n' :: lines_content (lines_of rest) := by
          simp [lines_content]
        rw [hcons, ih3]
        by_cases hcl : rest = [] ∨ rest.getLast? = some '\n'
        · rw [if_pos hcl, if_pos ((closed_line l rest).mpr hcl)]
        · rw [if_neg hcl, if_neg (fun h => hcl ((closed_line l rest).mp h))]
          simp

/-- On a file the device delivers in full, `read_lines` ends within the fuel and
returns the lines of the contents. -/
theorem read_lines_eq (w : World Path) (p : Path) (c : List Char) (fuel : Nat)
    (hfile : w.files p = some c) (hread : w.read_limit p = none)
    (hfuel : c.length + 2 ≤ fuel) :
    read_lines fuel w p = some (.ret (.value (lines_of c))) := by
  simp only [read_lines, World.open_read, hfile, hread]
  rw [read_lines_loop_eq c.length c (Nat.le_refl _) fuel _ [] hfuel]
  simp

/-- C10: for a file with contents `c` that the device delivers in full,
`read_lines` returns (with fuel above the length of `c` plus one) the segments of
`c` delimited by the newline character, in file order and without the
terminator; no returned line holds a newline, no final empty line is added when
`c` is empty or ends with a newline, and the number of lines is the number of
newlines in `c`, plus one when `c` is non-empty and does not end with one. -/
theorem read_lines_splits (w : World Path) (p : Path) (c : List Char) (fuel : Nat)
    (hfile : w.files p = some c) (hread : w.read_limit p = none)
    (hfuel : c.length + 2 ≤ fuel) :
    read_lines fuel w p = some (.ret (.value (lines_of c))) ∧
    lines_of c = (if c = [] ∨ c.getLast? = some '\n' then (c.splitOn '\n').dropLast
      else c.splitOn '\n') ∧
    (∀ l ∈ lines_of c, '\n' ∉ l) ∧
    (lines_of c).length =
      c.count '\n' + (if c ≠ [] ∧ c.getLast? ≠ some '\n' then 1 else 0) ∧
    lines_content (lines_of c) =
      (if c = [] ∨ c.getLast? = some '\n' then c else c ++ ['\n']) := by
  obtain ⟨f1, f2, f3⟩ := lines_of_facts c.length c (Nat.le_refl _)
  refine ⟨read_lines_eq w p c fuel hfile hread hfuel, rfl, f1, ?_, f3⟩
  · rw [f2]
    by_cases hcl : c = [] ∨ c.getLast? = some '\n'
    · rw [if_pos hcl, if_neg (by tauto)]
    · rw [if_neg hcl, if_pos (by tauto)]

/-- C10 at a concrete file: an empty line in the middle, a last line without
its newline. -/
theorem read_lines_splits_witness :
    ((host ['a', '\n', '\n', 'b']).files 1 = some ['a', '\n', '\n', 'b'] ∧
      (host ['a', '\n', '\n', 'b']).read_limit 1 = none ∧
      ['a', '\n', '\n', 'b'].length + 2 ≤ 6) ∧
    read_lines 6 (host ['a', '\n', '\n', 'b']) 1 = some (.ret (.value [['a'], [], ['b']])) ∧
    read_lines 6 (host ['a', '\n']) 1 = some (.ret (.value [['a']])) ∧
    read_lines 6 (host []) 1 = some (.ret (.value [])) :=
  ⟨⟨by decide, by decide, by decide⟩,
   ((read_lines_splits (host ['a', '\n', '\n', 'b']) 1 ['a', '\n', '\n', 'b'] 6
      (by decide) (by decide) (by decide)).1).trans (by decide),
   by decide, by decide⟩

/-- The file `1` of `host c` holds `c`. -/
theorem host_files (c : List Char) : (host c).files 1 = some c := rfl

/-- On a file the host reads in full, whose size is within the capacity of a
string, `read_contents` returns the bytes of the file. -/
theorem read_contents_healthy (pf : Platform) (w : World Path) (p : Path) (c : List Char)
    (hfile : w.files p = some c) (htell : w.tell_fails p = false)
    (hread : w.read_limit p = none) (hlen : c.length ≤ pf.max_size) :
    read_contents pf w p = .ret (.value c) := by
  have hmax := pf.max_size_lt
  have hpow : (2 : Int) ^ pf.size_bits = ((2 ^ pf.size_bits : Nat) : Int) := by push_cast; rfl
  have hmod : (c.length : Int) % 2 ^ pf.size_bits = (c.length : Int) := by
    rw [hpow]
    exact Int.emod_eq_of_lt (by omega) (by omega)
  have hex : exceeds_SIZE_MAX pf (c.length : Int) = false := by
    unfold exceeds_SIZE_MAX SIZE_MAX
    rw [hmod]
    split <;> simp <;> omega
  simp only [read_contents, World.open_read, hfile, htell, hread, ifstream.tellg_end,
    Bool.false_eq_true, if_false, hex, hmod, Int.toNat_ofNat]
  rw [if_neg (by omega)]
  simp

/-- C9, as the code has it: for a file that opens, whose size query succeeds
and whose bytes the device delivers in full, `read_contents` returns
`file_too_large` when the size exceeds `SIZE_MAX` (a `size_t` narrower than the
64-bit offset), and a payload equal to the full contents when the size is
within the capacity of a string. -/
theorem read_contents_outcomes (pf : Platform) (w : World Path) (p : Path) (c : List Char)
    (hfile : w.files p = some c) (htell : w.tell_fails p = false)
    (hread : w.read_limit p = none) :
    (pf.size_bits < 64 → SIZE_MAX pf < c.length →
      read_contents pf w p = .ret (.error .file_too_large)) ∧
    (c.length ≤ pf.max_size → read_contents pf w p = .ret (.value c)) := by
  refine ⟨?_, read_contents_healthy pf w p c hfile htell hread⟩
  intro hbits hbig
  have hex : exceeds_SIZE_MAX pf (c.length : Int) = true := by
    unfold exceeds_SIZE_MAX
    rw [if_pos hbits]
    simpa using hbig
  simp [read_contents, World.open_read, hfile, htell, ifstream.tellg_end, hex]

/-- C9, as the code has it, on the 32-bit target: a two-byte file is returned in
full, a file of `2 ^ 32` bytes is too large. -/
theorem read_contents_outcomes_witness :
    ((host ['a', 'b']).files 1 = some ['a', 'b'] ∧ (host ['a', 'b']).tell_fails 1 = false ∧
      (host ['a', 'b']).read_limit 1 = none) ∧
    ((win32.size_bits < 64 → SIZE_MAX win32 < ['a', 'b'].length →
        read_contents win32 (host ['a', 'b']) 1 = .ret (.error .file_too_large)) ∧
      (['a', 'b'].length ≤ win32.max_size →
        read_contents win32 (host ['a', 'b']) 1 = .ret (.value ['a', 'b']))) ∧
    read_contents win32 (host ['a', 'b']) 1 = .ret (.value ['a', 'b']) ∧
    read_contents win32 (host (List.replicate (2 ^ 32) 'a')) 1
      = .ret (.error .file_too_large) :=
  ⟨⟨by decide, by decide, by decide⟩,
   read_contents_outcomes win32 (host ['a', 'b']) 1 ['a', 'b'] (by decide) (by decide)
     (by decide),
   (read_contents_outcomes win32 (host ['a', 'b']) 1 ['a', 'b'] (by decide) (by decide)
     (by decide)).2 (by decide),
   (read_contents_outcomes win32 (host (List.replicate (2 ^ 32) 'a')) 1
     (List.replicate (2 ^ 32) 'a') (host_files _) rfl rfl).1
     (by decide) (by rw [List.length_replicate]; decide)⟩

/-- C9 fails on the code: after a read that comes up short the call returns a
payload of the measured length, the missing bytes zero, and no error kind; after
a failed size query `resize` throws. -/
theorem read_contents_short_read_payload :
    (short_read_host ['a', 'b', 'c'] 1).files 1 = some ['a', 'b', 'c'] ∧
    read_contents win32 (short_read_host ['a', 'b', 'c'] 1) 1
      = .ret (.value ['a', Char.ofNat 0, Char.ofNat 0]) ∧
    ¬ (read_contents win32 (short_read_host ['a', 'b', 'c'] 1) 1 = .ret (.value ['a', 'b', 'c']) ∨
      ∃ e, read_contents win32 (short_read_host ['a', 'b', 'c'] 1) 1 = .ret (.error e)) ∧
    read_contents win32 (no_tell_host ['a', 'b', 'c']) 1 = .raise := by
  refine ⟨by decide, ?_, ?_, ?_⟩
  · simp [read_contents, World.open_read, short_read_host, host, ifstream.tellg_end,
      exceeds_SIZE_MAX, SIZE_MAX, win32, List.replicate]
  · simp [read_contents, World.open_read, short_read_host, host, ifstream.tellg_end,
      exceeds_SIZE_MAX, SIZE_MAX, win32, List.replicate]
  · simp [read_contents, World.open_read, no_tell_host, host, ifstream.tellg_end,
      exceeds_SIZE_MAX, SIZE_MAX, win32]

end reading

/-! ## Lemmas: writing -/

section writing
variable {Path : Type}

/-- The content of a first line and the rest. -/
theorem lines_content_cons (line : List Char) (rest : List (List Char)) :
    lines_content (line :: rest) = line ++ '\n' :: lines_content rest := by
  simp [lines_content]

/-- A write the device has room for is accepted in full and appended. -/
theorem write_accepted [DecidableEq Path] (w : World Path) (p : Path) (old data : List Char)
    (hold : w.files p = some old)
    (hroom : ∀ k, w.capacity p = some k → old.length + data.length ≤ k) :
    (w.write p data).2 = data.length ∧ (w.write p data).1.files p = some (old ++ data) := by
  cases hcap : w.capacity p with
  | none => simp [World.write, World.set_file, World.log, hold, hcap]
  | some k =>
    have hk := hroom k hcap
    have hmin : min data.length (k - old.length) = data.length := by omega
    simp [World.write, World.set_file, World.log, hold, hcap, hmin]

/-- An insertion the device has room for keeps the stream good. -/
theorem insert_writing [DecidableEq Path] (F : Path) (base : World Path) (acc data : List Char)
    (st : World Path × ofstream Path) (h : Writing F base acc st)
    (hroom : ∀ k, base.capacity F = some k → acc.length + data.length ≤ k) :
    Writing F base (acc ++ data) (ofstream.insert st data) := by
  obtain ⟨h1, h2, h3, h4, h5, h6, h7⟩ := h
  have hw := write_accepted st.1 F acc data h2 (by rw [h3]; exact hroom)
  have hfailed : st.2.failed = false := by rw [h1]
  have hpath : st.2.path = F := by rw [h1]
  unfold ofstream.insert
  rw [if_neg (by simp [hfailed]), hpath]
  refine ⟨?_, hw.2, h3, h4, h5, h6, ?_⟩
  · simp [h1, hw.1]
  · intro q hq
    simp [World.write, World.set_file, World.log, hq, h7 q hq]

/-- The loop of `write_lines` on a good stream, with room for all lines, appends
every line followed by a newline. -/
theorem write_loop_writing [DecidableEq Path] (F : Path) (base : World Path) :
    ∀ (lines : List (List Char)) (acc : List Char) (st : World Path × ofstream Path),
      Writing F base acc st →
      (∀ k, base.capacity F = some k → acc.length + (lines_content lines).length ≤ k) →
      Writing F base (acc ++ lines_content lines)
        (lines.foldl (fun out line => ofstream.insert (ofstream.insert out line) ['\n']) st) := by
  intro lines
  induction lines with
  | nil =>
    intro acc st h _
    simpa [lines_content] using h
  | cons line rest ih =>
    intro acc st h hroom
    have hlen : (lines_content (line :: rest)).length
        = line.length + 1 + (lines_content rest).length := by
      rw [lines_content_cons]
      simp only [List.length_append, List.length_cons]
      omega
    have h1 := insert_writing F base acc line st h
      (fun k hk => by have := hroom k hk; omega)
    have h2 := insert_writing F base (acc ++ line) ['\n'] _ h1
      (fun k hk => by have := hroom k hk; simp only [List.length_append, List.length_singleton]; omega)
    have h3 := ih (acc ++ line ++ ['\n']) _ h2
      (fun k hk => by
        have := hroom k hk
        simp only [List.length_append, List.length_singleton]
        omega)
    have hc : acc ++ lines_content (line :: rest)
        = acc ++ line ++ ['\n'] ++ lines_content rest := by
      simp [lines_content_cons]
    rw [hc]
    exact h3

/-- Opening for writing on a host that allows it gives a good stream on an
empty file. -/
theorem open_writing [DecidableEq Path] (w : World Path) (F : Path) (hopen : w.write_denied F = false) :
    Writing F w [] (ofstream.open w F) := by
  unfold ofstream.open World.open_write
  rw [if_neg (by simp [hopen])]
  refine ⟨by simp, by simp [World.set_file, World.log], rfl, rfl, rfl, rfl, ?_⟩
  intro q hq
  simp [World.set_file, World.log, hq]

/-- Closing does not touch the files nor the host. -/
theorem close_writing (F : Path) (base : World Path) (acc : List Char)
    (st : World Path × ofstream Path) (h : Writing F base acc st) :
    (ofstream.close st).files F = some acc ∧
    (ofstream.close st).read_limit = base.read_limit ∧
    (ofstream.close st).tell_fails = base.tell_fails ∧
    ∀ q, q ≠ F → (ofstream.close st).files q = base.files q := by
  obtain ⟨h1, h2, _, h4, h5, _, h7⟩ := h
  have hopen : st.2.is_open = true := by rw [h1]
  unfold ofstream.close
  rw [if_pos hopen]
  exact ⟨h2, h4, h5, h7⟩

/-- On a host with the destination open-able and room for all lines,
`write_lines` leaves every line followed by a newline in the file. -/
theorem write_lines_files [DecidableEq Path] (w : World Path) (F : Path) (lines : List (List Char))
    (hopen : w.write_denied F = false)
    (hroom : ∀ k, w.capacity F = some k → (lines_content lines).length ≤ k) :
    (write_lines w F lines).1.files F = some (lines_content lines) ∧
    (write_lines w F lines).1.read_limit = w.read_limit ∧
    (write_lines w F lines).1.tell_fails = w.tell_fails ∧
    ∀ q, q ≠ F → (write_lines w F lines).1.files q = w.files q := by
  have h := write_loop_writing F w lines [] _ (open_writing w F hopen)
    (fun k hk => by simpa using hroom k hk)
  simpa [write_lines] using close_writing F w _ _ h

/-- A failed stream stays as it is through the loop of `write_lines`. -/
theorem write_loop_failed [DecidableEq Path] : ∀ (lines : List (List Char)) (st : World Path × ofstream Path),
    st.2.failed = true →
    lines.foldl (fun out line => ofstream.insert (ofstream.insert out line) ['\n']) st = st := by
  intro lines
  induction lines with
  | nil => intro st _; rfl
  | cons line rest ih =>
    intro st h
    have h1 : ofstream.insert st line = st := by simp [ofstream.insert, h]
    have h2 : ofstream.insert st ['\n'] = st := by simp [ofstream.insert, h]
    rw [List.foldl_cons, h1, h2]
    exact ih st h

/-- Writing back the lines of newline-free lines gives the lines. -/
theorem lines_of_lines_content : ∀ lines : List (List Char),
    (∀ l ∈ lines, '\n' ∉ l) → lines_of (lines_content lines) = lines := by
  intro lines
  induction lines with
  | nil => intro _; simp [lines_content, lines_of_nil]
  | cons line rest ih =>
    intro h
    rw [lines_content_cons, lines_of_line line _ (fun x hx hn => h line (List.mem_cons_self _ _) (hn ▸ hx)),
      ih (fun l hl => h l (List.mem_cons_of_mem _ hl))]

end writing

/-! ## Theorems: writing and the round trips -/

section roundtrip
variable {Path : Type}

/-- The bytes a buffered stream hands to the device during `fwrite` are no more
than the bytes pending. -/
theorem direct_le (b n : Nat) : (if b = 0 then n else n / b * b) ≤ n := by
  split
  · exact Nat.le_refl n
  · exact Nat.div_mul_le_self n b

/-- On an empty file with room for the data, `fwrite` on a fresh stream reports
all bytes written and `fclose` leaves exactly the data in the file. -/
theorem fwrite_fclose_ok [DecidableEq Path] (w : World Path) (p : Path) (data : List Char)
    (hfile : w.files p = some [])
    (hroom : ∀ k, w.capacity p = some k → data.length ≤ k) :
    (fwrite w ⟨p, []⟩ data).2.2 = data.length ∧
    (fclose (fwrite w ⟨p, []⟩ data).1 (fwrite w ⟨p, []⟩ data).2.1).files p = some data ∧
    (fclose (fwrite w ⟨p, []⟩ data).1 (fwrite w ⟨p, []⟩ data).2.1).tell_fails
      = w.tell_fails ∧
    (fclose (fwrite w ⟨p, []⟩ data).1 (fwrite w ⟨p, []⟩ data).2.1).read_limit
      = w.read_limit := by
  have hle := direct_le w.bufsiz data.length
  generalize hd : (if w.bufsiz = 0 then data.length
    else data.length / w.bufsiz * w.bufsiz) = d at hle
  have hfw : fwrite w ⟨p, []⟩ data =
      if d = 0 then (w, ⟨p, data⟩, data.length)
      else if (w.write p (data.take d)).2 < d then ((w.write p (data.take d)).1, ⟨p, []⟩,
        (w.write p (data.take d)).2 - 0)
      else ((w.write p (data.take d)).1, ⟨p, data.drop d⟩, data.length) := by
    simp only [fwrite, List.nil_append, hd, List.length_nil]
  rw [hfw]
  by_cases h0 : d = 0
  · rw [if_pos h0]
    cases hdata : data with
    | nil => simp [fclose, World.close, World.log, hfile]
    | cons a t =>
      have hacc := write_accepted w p [] (a :: t) hfile
        (fun k hk => by simpa [hdata] using hroom k hk)
      refine ⟨rfl, ?_, ?_, ?_⟩
      · simpa [fclose, World.close, World.log] using hacc.2
      · simp [fclose, World.close, World.log, World.write, World.set_file]
      · simp [fclose, World.close, World.log, World.write, World.set_file]
  · rw [if_neg h0]
    have hlen : (data.take d).length = d := by
      rw [List.length_take]
      omega
    have hacc := write_accepted w p [] (data.take d) hfile
      (fun k hk => by
        have := hroom k hk
        simp only [List.length_nil, Nat.zero_add, hlen]
        omega)
    rw [hlen] at hacc
    rw [if_neg (by omega)]
    have hfile1 : (w.write p (data.take d)).1.files p = some (data.take d) := by
      simpa using hacc.2
    by_cases hrest : data.drop d = []
    · have hall : data.take d = data := by
        have := List.take_append_drop d data
        rw [hrest, List.append_nil] at this
        exact this
      refine ⟨rfl, ?_, ?_, ?_⟩
      · simp only [fclose, hrest, List.isEmpty_nil, if_true, World.close, World.log]
        rw [hfile1, hall]
      · simp [fclose, hrest, World.close, World.log, World.write, World.set_file]
      · simp [fclose, hrest, World.close, World.log, World.write, World.set_file]
    · have hemp : (data.drop d).isEmpty = false := by
        cases hdr : data.drop d with
        | nil => exact absurd hdr hrest
        | cons _ _ => rfl
      have hacc2 := write_accepted (w.write p (data.take d)).1 p (data.take d) (data.drop d)
        hfile1
        (fun k hk => by
          have hk' : w.capacity p = some k := hk
          have := hroom k hk'
          have hsum : (data.take d).length + (data.drop d).length = data.length := by
            rw [← List.length_append, List.take_append_drop]
          omega)
      refine ⟨rfl, ?_, ?_, ?_⟩
      · simp only [fclose, hemp, Bool.false_eq_true, if_false, World.close, World.log]
        rw [hacc2.2, List.take_append_drop]
      · simp [fclose, hemp, World.close, World.log, World.write, World.set_file]
      · simp [fclose, hemp, World.close, World.log, World.write, World.set_file]

/-- On a host with the destination open-able and room for the data,
`write_contents` returns and leaves the data in the file. -/
theorem write_contents_ok [DecidableEq Path] (w : World Path) (p : Path) (data : List Char)
    (hopen : w.write_denied p = false)
    (hroom : ∀ k, w.capacity p = some k → data.length ≤ k) :
    (write_contents w p data).2 = .ret () ∧
    (write_contents w p data).1.files p = some data ∧
    (write_contents w p data).1.tell_fails = w.tell_fails ∧
    (write_contents w p data).1.read_limit = w.read_limit := by
  have ho : w.open_write p = ((w.set_file p []).log (.open_write p true), true) := by
    simp [World.open_write, hopen]
  obtain ⟨h1, h2, h3, h4⟩ := fwrite_fclose_ok ((w.set_file p []).log (.open_write p true)) p
    data (by simp [World.set_file, World.log]) (fun k hk => hroom k hk)
  refine ⟨?_, ?_, ?_, ?_⟩
  · simp [write_contents, ho, check_exit, h1]
  · simpa [write_contents, ho, check_exit] using h2
  · simpa [write_contents, ho, check_exit] using h3
  · simpa [write_contents, ho, check_exit] using h4

/-- C4: for a path that opens for writing, on a device with room for the lines
and that reads the file back in full, and for lines none of which holds a
newline, `write_lines` returns and `read_lines` of the same path then succeeds
(with fuel above the file length plus one) with exactly the lines written, in
order, with no trailing empty line. -/
theorem write_lines_read_lines_roundtrip [DecidableEq Path] (w : World Path) (F : Path)
    (lines : List (List Char)) (fuel : Nat)
    (hopen : w.write_denied F = false)
    (hroom : ∀ k, w.capacity F = some k → (lines_content lines).length ≤ k)
    (hread : w.read_limit F = none)
    (hnl : ∀ l ∈ lines, '\n' ∉ l)
    (hfuel : (lines_content lines).length + 2 ≤ fuel) :
    (write_lines w F lines).2 = .ret () ∧
    read_lines fuel (write_lines w F lines).1 F = some (.ret (.value lines)) := by
  obtain ⟨hf, hr, _, _⟩ := write_lines_files w F lines hopen hroom
  refine ⟨rfl, ?_⟩
  rw [read_lines_eq _ F (lines_content lines) fuel hf (by rw [hr]; exact hread) hfuel,
    lines_of_lines_content lines hnl]

/-- C4 at the lines `a`, `b`, `c`, and at the empty sequence and a sequence with
empty lines. -/
theorem write_lines_read_lines_roundtrip_witness :
    ((host []).write_denied 5 = false ∧ (host []).read_limit 5 = none ∧
      (lines_content [['a'], ['b'], ['c']]).length + 2 ≤ 8) ∧
    ((write_lines (host []) 5 [['a'], ['b'], ['c']]).2 = .ret () ∧
      read_lines 8 (write_lines (host []) 5 [['a'], ['b'], ['c']]).1 5
        = some (.ret (.value [['a'], ['b'], ['c']]))) ∧
    read_lines 8 (write_lines (host []) 5 []).1 5 = some (.ret (.value [])) ∧
    read_lines 8 (write_lines (host []) 5 [[], ['a'], []]).1 5
      = some (.ret (.value [[], ['a'], []])) :=
  ⟨⟨by decide, by decide, by decide⟩,
   write_lines_read_lines_roundtrip (host []) 5 [['a'], ['b'], ['c']] 8 (by decide)
     (by intro k hk; simp [host] at hk) (by decide) (by decide) (by decide),
   by decide, by decide⟩

/-- C5: for an existing file `F` with contents `c` (any bytes, a string of the
platform) that the host reads in full, and a path `F2` that opens for writing
with room for `c` and reads back in full, `read_contents F` succeeds with `c`,
`write_contents F2 c` returns, and `read_contents F2` then succeeds with a
payload equal to `c`. -/
theorem contents_roundtrip [DecidableEq Path] (pf : Platform) (w : World Path) (F F2 : Path)
    (c : List Char)
    (hfile : w.files F = some c) (htell : w.tell_fails F = false)
    (hread : w.read_limit F = none) (hlen : c.length ≤ pf.max_size)
    (hopen : w.write_denied F2 = false)
    (hroom : ∀ k, w.capacity F2 = some k → c.length ≤ k)
    (htell2 : w.tell_fails F2 = false) (hread2 : w.read_limit F2 = none) :
    read_contents pf w F = .ret (.value c) ∧
    (write_contents w F2 c).2 = .ret () ∧
    read_contents pf (write_contents w F2 c).1 F2 = .ret (.value c) := by
  obtain ⟨h1, h2, h3, h4⟩ := write_contents_ok w F2 c hopen hroom
  exact ⟨read_contents_healthy pf w F c hfile htell hread hlen, h1,
    read_contents_healthy pf _ F2 c h2 (by rw [h3]; exact htell2) (by rw [h4]; exact hread2) hlen⟩

/-- C5 at a file holding a NUL byte and a newline, and at the empty file. -/
theorem contents_roundtrip_witness :
    ((host ['a', Char.ofNat 0, '\n']).files 1 = some ['a', Char.ofNat 0, '\n'] ∧
      ['a', Char.ofNat 0, '\n'].length ≤ win32.max_size ∧
      (host ['a', Char.ofNat 0, '\n']).write_denied 2 = false) ∧
    (read_contents win32 (host ['a', Char.ofNat 0, '\n']) 1
        = .ret (.value ['a', Char.ofNat 0, '\n']) ∧
      (write_contents (host ['a', Char.ofNat 0, '\n']) 2 ['a', Char.ofNat 0, '\n']).2
        = .ret () ∧
      read_contents win32
          (write_contents (host ['a', Char.ofNat 0, '\n']) 2 ['a', Char.ofNat 0, '\n']).1 2
        = .ret (.value ['a', Char.ofNat 0, '\n'])) ∧
    (read_contents win64 (host []) 1 = .ret (.value []) ∧
      (write_contents (host []) 2 []).2 = .ret () ∧
      read_contents win64 (write_contents (host []) 2 []).1 2 = .ret (.value [])) :=
  ⟨⟨by decide, by decide, by decide⟩,
   contents_roundtrip win32 (host ['a', Char.ofNat 0, '\n']) 1 2 ['a', Char.ofNat 0, '\n']
     (by decide) (by decide) (by decide) (by decide) (by decide)
     (by intro k hk; simp [host] at hk) (by decide) (by decide),
   contents_roundtrip win64 (host []) 1 2 [] (by decide) (by decide) (by decide) (by decide)
     (by decide) (by intro k hk; simp [host] at hk) (by decide) (by decide)⟩

/-- C7, evaluated on the code: on a host where the destination opens for
writing and the device has room for one byte, `write_contents` of three bytes
returns normally and leaves one byte in the file.  The bytes wait in the buffer
of the stream, `fwrite` reports three, and the flush that fails happens in
`fclose`, whose result is not looked at.  On a failed open the call exits. -/
theorem write_contents_short_flush_returns :
    ((full_host [] 1).open_write 3).2 = true ∧
    (write_contents (full_host [] 1) 3 ['a', 'b', 'c']).2 = .ret () ∧
    (write_contents (full_host [] 1) 3 ['a', 'b', 'c']).1.files 3 = some ['a'] ∧
    (write_contents (denied_host []) 3 ['a', 'b', 'c']).2 = .exit := by
  decide

/-- C8 fails on the code: with the destination denied for writing,
`write_lines` returns normally and the file does not exist; with room for one
byte only, it returns normally and the file holds one byte of the two lines. -/
theorem write_lines_swallows_failure :
    ((denied_host []).open_write 3).2 = false ∧
    (write_lines (denied_host []) 3 [['a'], ['b']]).2 = .ret () ∧
    (write_lines (denied_host []) 3 [['a'], ['b']]).1.files 3 = none ∧
    (write_lines (full_host [] 1) 3 [['a'], ['b']]).2 = .ret () ∧
    (write_lines (full_host [] 1) 3 [['a'], ['b']]).1.files 3 = some ['a'] := by
  decide

/-- C8, as the code has it: `write_lines` has no fatal path, it returns normally
for every path and sequence of lines.  When the destination opens for writing
and the device has room for the lines, the file then holds every line followed
by a single newline; when the open fails, the files are left as they were. -/
theorem write_lines_returns [DecidableEq Path] (w : World Path) (F : Path)
    (lines : List (List Char)) :
    (write_lines w F lines).2 = .ret () ∧
    (w.write_denied F = false →
      (∀ k, w.capacity F = some k → (lines_content lines).length ≤ k) →
      (write_lines w F lines).1.files F = some (lines_content lines)) ∧
    (w.write_denied F = true → (write_lines w F lines).1.files = w.files) := by
  refine ⟨rfl, fun hopen hroom => (write_lines_files w F lines hopen hroom).1, ?_⟩
  intro hd
  have hst : ofstream.open w F = (w.log (.open_write F false), ⟨F, false, true⟩) := by
    simp [ofstream.open, World.open_write, hd]
  simp [write_lines, hst, write_loop_failed, ofstream.close, World.log]

end roundtrip

end vcpkg.Files
